import Mathlib

/-!
# Verification of the hotel-booking chatbot core

Shallow embedding of the conversation state machine (`app.py`) and the
NLP field extractors (`nlp_utils.py`) of the hotel-booking-chatbot
repository, together with proofs settling the frozen claims about them.

Modelling conventions:
* Python strings are Lean `String`s; the character-level helpers
  (`strip`, `lower`, `split`, `title`) are modelled for ASCII input,
  which is the domain the word lists and thresholds operate on.
* `rapidfuzz.fuzz.ratio(a, b)` is the normalized InDel similarity
  `200 * lcs(a,b) / (len a + len b)`.  All threshold comparisons in the
  source (`>= 80`, `>= 70`, `> 60`, `score > best_score`) are embedded
  as exact integer cross-multiplications.  This agrees with the source's
  IEEE-double comparisons: the ratios are fractions with numerator and
  denominator below a few thousand, so distinct values differ by far
  more than the rounding error of a correctly rounded double quotient,
  and equal values round to equal doubles.
* Exceptions (`sqlite3` errors, `KeyError`) are modelled with `Except`:
  a raising call aborts the remaining statements of the handler, and the
  session keeps exactly the mutations performed before the raise.
-/

/-- The six whitespace characters recognised by Python's `str.strip()` and
`str.split()` on ASCII text: space, tab, newline, carriage return,
vertical tab, form feed. -/
def isPyWs (c : Char) : Bool :=
  c == ' ' || c == '\t' || c == '\n' || c == '\r' || c == '\x0b' || c == '\x0c'

/-- Python `str.strip()` on a character list: drop whitespace from both ends. -/
def stripList (l : List Char) : List Char :=
  ((l.dropWhile isPyWs).reverse.dropWhile isPyWs).reverse

/-- Python `str.strip()`. -/
def pyStrip (s : String) : String := ⟨stripList s.data⟩

/-- ASCII lowercasing of one character, as Python `str.lower()` acts on
ASCII letters. -/
def lowChar (c : Char) : Char :=
  match c with
  | 'A' => 'a' | 'B' => 'b' | 'C' => 'c' | 'D' => 'd' | 'E' => 'e'
  | 'F' => 'f' | 'G' => 'g' | 'H' => 'h' | 'I' => 'i' | 'J' => 'j'
  | 'K' => 'k' | 'L' => 'l' | 'M' => 'm' | 'N' => 'n' | 'O' => 'o'
  | 'P' => 'p' | 'Q' => 'q' | 'R' => 'r' | 'S' => 's' | 'T' => 't'
  | 'U' => 'u' | 'V' => 'v' | 'W' => 'w' | 'X' => 'x' | 'Y' => 'y'
  | 'Z' => 'z'
  | c => c

/-- ASCII uppercasing of one character, as Python `str.title()` uses. -/
def upChar (c : Char) : Char :=
  match c with
  | 'a' => 'A' | 'b' => 'B' | 'c' => 'C' | 'd' => 'D' | 'e' => 'E'
  | 'f' => 'F' | 'g' => 'G' | 'h' => 'H' | 'i' => 'I' | 'j' => 'J'
  | 'k' => 'K' | 'l' => 'L' | 'm' => 'M' | 'n' => 'N' | 'o' => 'O'
  | 'p' => 'P' | 'q' => 'Q' | 'r' => 'R' | 's' => 'S' | 't' => 'T'
  | 'u' => 'U' | 'v' => 'V' | 'w' => 'W' | 'x' => 'X' | 'y' => 'Y'
  | 'z' => 'Z'
  | c => c

/-- ASCII letter test (the cased characters of the inputs in scope). -/
def isAsciiAlpha (c : Char) : Bool :=
  ('a' ≤ c && c ≤ 'z') || ('A' ≤ c && c ≤ 'Z')

/-- Python `str.lower()` (ASCII model). -/
def pyLower (s : String) : String := ⟨s.data.map lowChar⟩

/-- Python `str.title()` on a character list: a letter is uppercased when
the previous character is not a letter, lowercased otherwise. -/
def titleList : List Char → Bool → List Char
  | [], _ => []
  | c :: cs, prevAlpha =>
    (if prevAlpha then lowChar c else upChar c) :: titleList cs (isAsciiAlpha c)

/-- Python `str.title()` (ASCII model). -/
def pyTitle (s : String) : String := ⟨titleList s.data false⟩

/-- Python `str.split()` with no separator: split on whitespace runs,
discarding empty pieces.  Implemented with a right fold. -/
def splitWsAux (c : Char) (acc : List (List Char)) : List (List Char) :=
  if isPyWs c then [] :: acc
  else
    match acc with
    | [] => [[c]]
    | w :: ws => (c :: w) :: ws

/-- The whitespace-delimited words of a character list. -/
def wordsOf (l : List Char) : List (List Char) :=
  (l.foldr splitWsAux [[]]).filter (fun w => !w.isEmpty)

/-- `pat` is a contiguous segment (Python substring) of `l`. -/
def segIn (pat l : List Char) : Prop := ∃ s t, l = s ++ pat ++ t

/-- Boolean test that `pat` is a prefix of `l`. -/
def isPrefList : List Char → List Char → Bool
  | [], _ => true
  | _ :: _, [] => false
  | p :: ps, x :: xs => p == x && isPrefList ps xs

/-- Boolean test for the Python substring operator `pat in l`. -/
def segContains (pat : List Char) : List Char → Bool
  | [] => isPrefList pat []
  | x :: xs => isPrefList pat (x :: xs) || segContains pat xs

/-- Strip the characters of `cut` from both ends of a word, as Python
`str.strip(chars)` does. -/
def stripCharsList (cut : List Char) (l : List Char) : List Char :=
  ((l.dropWhile (fun c => cut.contains c)).reverse.dropWhile
      (fun c => cut.contains c)).reverse

/-- ASCII digit test (`re` `\d` on the ASCII inputs in scope). -/
def isAsciiDigit (c : Char) : Bool := '0' ≤ c && c ≤ '9'

/-- Numeric value of a digit character. -/
def digitVal (c : Char) : Nat := c.toNat - 48

/-- `int()` of a run of digit characters. -/
def readNat (l : List Char) : Nat := l.foldl (fun a c => 10 * a + digitVal c) 0

/-- Scanner collecting maximal digit runs; `cur` is the current run,
reversed. -/
def digitRunsAux : List Char → List Char → List (List Char)
  | [], cur => if cur.isEmpty then [] else [cur.reverse]
  | c :: cs, cur =>
    if isAsciiDigit c then digitRunsAux cs (c :: cur)
    else if cur.isEmpty then digitRunsAux cs []
    else cur.reverse :: digitRunsAux cs []

/-- The maximal digit runs of a character list, left to right: the matches
of `re.findall(r"\d+", text)` on ASCII text. -/
def digitRuns (l : List Char) : List (List Char) := digitRunsAux l []

/-- One row update of the longest-common-subsequence dynamic program.
`pprev` walks the previous row starting at the diagonal entry, `left` is
the entry just computed in the current row. -/
def lcsRowAux (c : Char) : List Char → List Nat → Nat → List Nat
  | [], _, _ => []
  | tj :: ts, pprev, left =>
    match pprev with
    | [] => []
    | pd :: ptail =>
      let pj := ptail.headD 0
      let q := if c == tj then pd + 1 else max left pj
      q :: lcsRowAux c ts ptail q

/-- Length of a longest common subsequence of two character lists,
computed row by row. -/
def lcsLen (s t : List Char) : Nat :=
  (s.foldl (fun prev c => 0 :: lcsRowAux c t prev 0)
      (List.replicate (t.length + 1) 0)).getLastD 0

/-- `rapidfuzz.fuzz.ratio a b >= thr` for an integer percentage threshold,
decided exactly: the ratio is `200 * lcs / (|a| + |b|)` (with both-empty
giving ratio 100, which this inequality also yields). -/
def fuzzGe (a b : List Char) (thr : Nat) : Bool :=
  thr * (a.length + b.length) ≤ 200 * lcsLen a b

/-- `rapidfuzz.fuzz.ratio a b > thr`, decided exactly. -/
def fuzzGt (a b : List Char) (thr : Nat) : Bool :=
  thr * (a.length + b.length) < 200 * lcsLen a b

/-! ## `nlp_utils.is_yes` -/

/-- The affirmative word list of `is_yes`. -/
def yes_words : List String :=
  ["yes", "y", "yeah", "yep", "yup", "sure", "ok", "okay", "alright",
   "definitely", "absolutely", "certainly", "of course", "please",
   "correct", "right", "true", "confirm", "agreed"]

/-- The negative word list of `is_yes`. -/
def no_words : List String :=
  ["no", "n", "nope", "nah", "not", "never", "none", "negative",
   "false", "incorrect", "wrong", "disagree", "refuse", "decline"]

/-- Tri-state yes/no extractor, translated from `nlp_utils.is_yes`:
exact list membership, then whole-input fuzzy match at 80, then
per-token fuzzy counting at 70 with ties ambiguous. -/
def is_yes (text : String) : Option Bool :=
  if (pyStrip text).data.isEmpty then none
  else
    let text_lower := pyLower (pyStrip text)
    if yes_words.contains text_lower then some true
    else if no_words.contains text_lower then some false
    else if yes_words.any (fun w => fuzzGe text_lower.data w.data 80) then some true
    else if no_words.any (fun w => fuzzGe text_lower.data w.data 80) then some false
    else
      let ws := wordsOf text_lower.data
      let yes_count :=
        (ws.filter (fun w => yes_words.any (fun yw => fuzzGe w yw.data 70))).length
      let no_count :=
        (ws.filter (fun w => no_words.any (fun nw => fuzzGe w nw.data 70))).length
      if no_count < yes_count then some true
      else if yes_count < no_count then some false
      else none

/-! ## `nlp_utils.parse_guests` -/

/-- The solo-stay indicator phrases checked by substring containment. -/
def single_indicators : List String :=
  ["me", "myself", "just me", "one person", "solo", "alone"]

/-- The fixed word-to-number table, in its Python insertion order. -/
def word_to_num : List (String × Nat) :=
  [("one", 1), ("two", 2), ("three", 3), ("four", 4), ("five", 5),
   ("six", 6), ("seven", 7), ("eight", 8), ("nine", 9), ("ten", 10),
   ("a", 1), ("an", 1), ("single", 1), ("couple", 2), ("pair", 2)]

/-- The punctuation characters stripped from token ends:
`. , ! ? ; : " ( ) [ ] { }`. -/
def punctChars : List Char :=
  ['\x2e', '\x2c', '\x21', '\x3f', '\x3b', '\x3a', '\x22',
   '\x28', '\x29', '\x5b', '\x5d', '\x7b', '\x7d']

/-- A token with surrounding punctuation removed. -/
def cleanTok (w : List Char) : List Char := stripCharsList punctChars w

/-- Guest-count extractor, translated from `nlp_utils.parse_guests`:
solo indicators by substring, then first digit run valued in 1..10,
then exact table lookup on cleaned tokens, then fuzzy table lookup. -/
def parse_guests (text : String) : Option Nat :=
  if (pyStrip text).data.isEmpty then none
  else
    if single_indicators.any
        (fun ind => segContains ind.data (pyLower (pyStrip text)).data) then
      some 1
    else
      match (digitRuns text.data).findSome?
          (fun run =>
            let n := readNat run
            if 1 ≤ n ∧ n ≤ 10 then some n else none) with
      | some n => some n
      | none =>
        match (wordsOf (pyLower (pyStrip text)).data).findSome?
            (fun w => word_to_num.findSome?
              (fun p => if cleanTok w == p.1.data then some p.2 else none)) with
        | some n => some n
        | none =>
          (wordsOf (pyLower (pyStrip text)).data).findSome?
            (fun w => word_to_num.findSome?
              (fun p => if fuzzGe (cleanTok w) p.1.data 80 then some p.2 else none))

/-! ## `nlp_utils.validate_date_order` and the `%Y-%m-%d` date parse -/

/-- Gregorian leap-year test, as `datetime.date` uses. -/
def isLeapYear (y : Nat) : Bool :=
  y % 4 == 0 && (y % 100 != 0 || y % 400 == 0)

/-- Days in a month of the proleptic Gregorian calendar (0 for an
invalid month number). -/
def daysInMonth (y m : Nat) : Nat :=
  if m = 1 then 31
  else if m = 2 then (if isLeapYear y then 29 else 28)
  else if m = 3 then 31
  else if m = 4 then 30
  else if m = 5 then 31
  else if m = 6 then 30
  else if m = 7 then 31
  else if m = 8 then 31
  else if m = 9 then 30
  else if m = 10 then 31
  else if m = 11 then 30
  else if m = 12 then 31
  else 0

/-- Days in the months strictly before month `m` of year `y`
(months count from 1; `daysInMonth y 0 = 0`). -/
def daysBeforeMonth (y : Nat) : Nat → Nat
  | 0 => 0
  | m + 1 => daysBeforeMonth y m + daysInMonth y m

/-- Number of leap years in `1..y`. -/
def leapsBefore (y : Nat) : Nat := y / 4 + y / 400 - y / 100

/-- Serial day number of a calendar date (rata die): the position of the
date in the forward count of all days of the proleptic Gregorian
calendar from January 1 of year 1. -/
def rataDie : Nat × Nat × Nat → Nat
  | (y, m, d) => 365 * (y - 1) + leapsBefore (y - 1) + daysBeforeMonth y m + d

/-- The triple is a real calendar date (year at least 1, month 1..12,
day within the month). -/
def validDate : Nat × Nat × Nat → Prop
  | (y, m, d) => 1 ≤ y ∧ 1 ≤ m ∧ m ≤ 12 ∧ 1 ≤ d ∧ d ≤ daysInMonth y m

instance : DecidablePred validDate := fun t =>
  match t with
  | (_, _, _) => by unfold validDate; infer_instance

/-- The `datetime` constructor applied to already-lexed fields: it
rejects year 0 (`MINYEAR` is 1), months outside 1..12 and days outside
the month (raising `ValueError`, i.e. `none` here). -/
def mkDate (y m d : Nat) : Option (Nat × Nat × Nat) :=
  if (1 ≤ y ∧ 1 ≤ m ∧ m ≤ 12) ∧ (1 ≤ d ∧ d ≤ daysInMonth y m) then some (y, m, d)
  else none

/-- `datetime.strptime(s, "%Y-%m-%d").date()` as a total function:
exactly four year digits, dash, one or two month digits, dash, one or
two day digits, end of string; the fields must form a real calendar
date with year at least 1 (the `%m` and `%d` patterns allow one- or
two-digit fields, and the constructor validates the result). -/
def parseIsoDate (s : String) : Option (Nat × Nat × Nat) :=
  match s.data with
  | c1 :: c2 :: c3 :: c4 :: '-' :: rest =>
    if isAsciiDigit c1 && (isAsciiDigit c2 && (isAsciiDigit c3 && isAsciiDigit c4)) then
      if 1 ≤ (rest.takeWhile isAsciiDigit).length ∧
          (rest.takeWhile isAsciiDigit).length ≤ 2 then
        match rest.dropWhile isAsciiDigit with
        | '-' :: rest3 =>
          if (1 ≤ (rest3.takeWhile isAsciiDigit).length ∧
                (rest3.takeWhile isAsciiDigit).length ≤ 2) ∧
              (rest3.dropWhile isAsciiDigit).isEmpty then
            mkDate
              (digitVal c1 * 1000 + digitVal c2 * 100 + digitVal c3 * 10 + digitVal c4)
              (readNat (rest.takeWhile isAsciiDigit))
              (readNat (rest3.takeWhile isAsciiDigit))
          else none
        | _ => none
      else none
    else none
  | _ => none

/-- Python `date` comparison `a < b`: lexicographic on
(year, month, day). -/
def dateLt (a b : Nat × Nat × Nat) : Bool :=
  decide (a.1 < b.1) ||
    (a.1 == b.1 &&
      (decide (a.2.1 < b.2.1) || (a.2.1 == b.2.1 && decide (a.2.2 < b.2.2))))

/-- Date-order validator, translated from
`nlp_utils.validate_date_order`: parse both strings with `%Y-%m-%d`;
any parse failure yields `false`, otherwise compare strictly. -/
def validate_date_order (checkin_str checkout_str : String) : Bool :=
  match parseIsoDate checkin_str, parseIsoDate checkout_str with
  | some a, some b => dateLt a b
  | _, _ => false

/-! ## The conversation state machine of `app.py` -/

/-- The conversation steps assigned to `session_state["step"]`. -/
inductive Step
  | name | checkin | checkout | guests | breakfast | payment | confirm | complete
deriving DecidableEq, Repr

/-- The accumulated booking data dictionary: each key is present
(`some`) or absent (`none`). -/
structure BookingData where
  name : Option String := none
  checkin_date : Option String := none
  checkout_date : Option String := none
  guests : Option Nat := none
  breakfast : Option Bool := none
  payment_method : Option String := none
deriving DecidableEq, Repr

/-- The empty data dictionary `{}`. -/
def emptyData : BookingData := {}

/-- One per-session conversation state. -/
structure SessionState where
  session_id : String := ""
  step : Step
  data : BookingData
deriving DecidableEq, Repr

/-- The record returned by the booking sink `save_booking_to_db`. -/
structure BookingRecord where
  id : Nat
  session_id : String := ""
  name : String := ""
  checkin : String := ""
  checkout : String := ""
  guests : Nat := 0
  breakfast : Bool := false
  payment_method : String := ""
  created_at : String := ""
deriving DecidableEq, Repr

/-- The reply dictionary built by `process_conversation_step`. -/
structure ChatReply where
  reply : String
  complete : Bool
  booking : Option BookingRecord
deriving DecidableEq, Repr

/-- Python truthiness of an optional string (`None` and `""` false). -/
def truthyStr : Option String → Bool
  | none => false
  | some s => !s.data.isEmpty

/-- Python truthiness of an optional integer (`None` and `0` false). -/
def truthyNat : Option Nat → Bool
  | none => false
  | some n => n != 0

/-- The re-prompt of the `name` step. -/
def nameReprompt : String :=
  "I didn\x27t catch your name. Could you please tell me your name?"

/-- The re-prompt of the `checkin` step. -/
def checkinReprompt : String :=
  "I couldn\x27t understand the date. Please provide your check-in date (e.g., \x27tomorrow\x27, \x27January 15th\x27, or \x272024-01-15\x27)"

/-- The ordering-failure reply of the `checkout` step, naming the stored
check-in date. -/
def checkoutOrderReply (ci : String) : String :=
  "Check-out date must be after check-in date (" ++ ci ++ "). Please provide a later check-out date."

/-- The parse-failure re-prompt of the `checkout` step. -/
def checkoutReprompt : String :=
  "I couldn\x27t understand the check-out date. Please provide a valid date."

/-- The re-prompt of the `guests` step. -/
def guestsReprompt : String := "Please tell me the number of guests (1-10 people)."

/-- The re-prompt of the `breakfast` step. -/
def breakfastReprompt : String := "Please answer yes or no for breakfast preference."

/-- The booking summary shown on entering `confirm` (the f-string of the
source, whose bullet bytes read as `â€¢` in the file, followed by
`.strip()`). -/
def confirmSummary (nm ci co : String) (g : Nat) (bf : Bool) (pm : String) : String :=
  pyStrip ("\n" ++
    "Please confirm your booking details:\n\n" ++
    "â€¢ Name: " ++ nm ++ "\n" ++
    "â€¢ Check-in: " ++ ci ++ "\n" ++
    "â€¢ Check-out: " ++ co ++ "\n" ++
    "â€¢ Guests: " ++ toString g ++ "\n" ++
    "â€¢ Breakfast: " ++ (if bf then "Yes" else "No") ++ "\n" ++
    "â€¢ Payment: " ++ pm ++ "\n\n" ++
    "Type \x27confirm\x27 to complete your booking or \x27cancel\x27 to start over.\n")

/-- The completion reply carrying the sink-assigned identifier (the
party-popper emoji bytes of the source read as four chars). -/
def confirmedReply (bookingId : Nat) : String :=
  "ðŸŽ‰ Booking confirmed! Your reservation ID is #" ++
    toString bookingId ++ ". Thank you for choosing our hotel!"

/-- The cancellation reply of the `confirm` step. -/
def cancelReply : String :=
  "Booking cancelled. Let\x27s start over! What\x27s your name?"

/-- The re-prompt of the `confirm` step. -/
def confirmReprompt : String :=
  "Please type \x27confirm\x27 to complete your booking or \x27cancel\x27 to start over."

/-- The reply of the fall-through reset branch. -/
def resetReply : String := "Let\x27s start over! What\x27s your name?"

/-- The exact affirmative set of the `confirm` step. -/
def affirmWords : List String := ["confirm", "yes", "book", "book it", "proceed"]

/-- The exact negative set of the `confirm` step. -/
def negWords : List String := ["cancel", "no", "restart", "start over"]

/-- The skip tokens of the `payment` step. -/
def skipWords : List String := ["skip", "later", "none"]

/-- The canonical payment methods of the `payment` step. -/
def valid_methods : List String := ["credit card", "debit card", "cash", "paypal"]

/-- Numerator of the exact similarity score `fuzz.ratio pm m` as the
fraction `scoreNum / scoreDen`. -/
def scoreNum (pm m : String) : Nat := 200 * lcsLen pm.data m.data

/-- Denominator of the exact similarity score. -/
def scoreDen (pm m : String) : Nat := pm.length + m.length

/-- The best-match loop of the `payment` step: running best match with
its score kept as the exact fraction `bn / bd`; a method replaces the
best when its score strictly exceeds both the running best and 60. -/
def paymentFold (pm : String) : List String → (Option String × Nat × Nat) →
    Option String × Nat × Nat
  | [], acc => acc
  | m :: rest, acc =>
    paymentFold pm rest
      (if acc.2.1 * scoreDen pm m < scoreNum pm m * acc.2.2 ∧
          60 * scoreDen pm m < scoreNum pm m then
        (some m, scoreNum pm m, scoreDen pm m)
      else acc)

/-- The best canonical method of the `payment` step, `None` when no
method scores strictly above 60. -/
def paymentBest (pm : String) : Option String :=
  (paymentFold pm valid_methods (none, 0, 1)).1

/-- The stored payment value: skip tokens give the sentinel, a best
match is stored in title case, otherwise the input itself is
title-cased. -/
def resolve_payment (pm : String) : String :=
  if skipWords.contains pm then "Not specified"
  else
    match paymentBest pm with
    | some m => pyTitle m
    | none => pyTitle pm

/-- One turn of the dialogue, translated from
`app.process_conversation_step`.  The name and date extractors call
external libraries (spaCy, dateparser), so they are parameters; the
booking sink `save_booking_to_db` performs I/O, so it is a parameter
returning `Except`.  The function returns the reply (or a propagated
exception) together with the session state as mutated so far. -/
def process_conversation_step
    (extract_name parse_date : String → Option String)
    (sink : String → BookingData → Except Unit BookingRecord)
    (st : SessionState) (user_message : String) :
    Except Unit ChatReply × SessionState :=
  match st.step with
  | .name =>
    let nm := extract_name user_message
    if truthyStr nm then
      let n := nm.getD ""
      (.ok ⟨"Nice to meet you, " ++ n ++ "! When would you like to check in? (e.g., \x27tomorrow\x27, \x27January 15th\x27, \x272024-01-15\x27)", false, none⟩,
        { st with data := { st.data with name := some n }, step := .checkin })
    else
      (.ok ⟨nameReprompt, false, none⟩, st)
  | .checkin =>
    let dt := parse_date user_message
    if truthyStr dt then
      let d := dt.getD ""
      (.ok ⟨"Great! Check-in on " ++ d ++ ". When would you like to check out?", false, none⟩,
        { st with data := { st.data with checkin_date := some d }, step := .checkout })
    else
      (.ok ⟨checkinReprompt, false, none⟩, st)
  | .checkout =>
    let dt := parse_date user_message
    if truthyStr dt then
      let d := dt.getD ""
      match st.data.checkin_date with
      | none => (.error (), st)   -- KeyError on data["checkin_date"]
      | some ci =>
        if validate_date_order ci d then
          (.ok ⟨"Perfect! Check-out on " ++ d ++ ". How many guests will be staying?", false, none⟩,
            { st with data := { st.data with checkout_date := some d }, step := .guests })
        else
          (.ok ⟨checkoutOrderReply ci, false, none⟩, st)
    else
      (.ok ⟨checkoutReprompt, false, none⟩, st)
  | .guests =>
    let g := parse_guests user_message
    if truthyNat g then
      let n := g.getD 0
      let guest_text := if n == 1 then "guest" else "guests"
      (.ok ⟨"Noted: " ++ toString n ++ " " ++ guest_text ++ ". Would you like to include breakfast? (yes/no)", false, none⟩,
        { st with data := { st.data with guests := some n }, step := .breakfast })
    else
      (.ok ⟨guestsReprompt, false, none⟩, st)
  | .breakfast =>
    match is_yes user_message with
    | some b =>
      let breakfast_text := if b then "with breakfast" else "without breakfast"
      (.ok ⟨"Excellent, " ++ breakfast_text ++ "! What\x27s your preferred payment method? (credit card, debit card, cash, paypal, or \x27skip\x27)", false, none⟩,
        { st with data := { st.data with breakfast := some b }, step := .payment })
    | none =>
      (.ok ⟨breakfastReprompt, false, none⟩, st)
  | .payment =>
    let pm := pyLower (pyStrip user_message)
    let stored := resolve_payment pm
    let st' := { st with data := { st.data with payment_method := some stored },
                         step := .confirm }
    -- the summary f-string reads name, checkin_date, checkout_date and
    -- guests with bracket lookups: a missing key raises after the
    -- mutations above
    match st.data.name, st.data.checkin_date, st.data.checkout_date, st.data.guests with
    | some nm, some ci, some co, some g =>
      (.ok ⟨confirmSummary nm ci co g (st.data.breakfast.getD false) stored, false, none⟩, st')
    | _, _, _, _ => (.error (), st')
  | .confirm =>
    let response := pyStrip (pyLower user_message)
    if affirmWords.contains response then
      match sink st.session_id st.data with
      | .error e => (.error e, st)
      | .ok record =>
        (.ok ⟨confirmedReply record.id, true, some record⟩, { st with step := .complete })
    else if negWords.contains response then
      (.ok ⟨cancelReply, false, none⟩, { st with step := .name, data := {} })
    else
      (.ok ⟨confirmReprompt, false, none⟩, st)
  | .complete =>
    -- the string "complete" matches none of the elif arms: the default
    -- branch resets step and data
    (.ok ⟨resetReply, false, none⟩, { st with step := .name, data := {} })

/-! ## Calendar arithmetic: the lexicographic `date` order is the
chronological (serial-day) order on valid dates -/

theorem leapsBefore_succ (n : Nat) :
    leapsBefore (n + 1) = leapsBefore n + (if isLeapYear (n + 1) then 1 else 0) := by
  cases h : isLeapYear (n + 1) <;>
    simp only [h, Bool.false_eq_true, if_false, if_true] <;>
    simp only [isLeapYear, Bool.and_eq_true, Bool.or_eq_true, Bool.and_eq_false_iff,
      Bool.or_eq_false_iff, beq_iff_eq, bne_iff_ne, beq_eq_false_iff_ne,
      bne_eq_false_iff_eq, ne_eq] at h <;>
    simp only [leapsBefore] <;> omega

/-- Day count of all years up to and including year `n`. -/
def yearCount (n : Nat) : Nat := 365 * n + leapsBefore n

theorem yearCount_succ (n : Nat) :
    yearCount (n + 1) = yearCount n + (if isLeapYear (n + 1) then 366 else 365) := by
  simp only [yearCount, leapsBefore_succ]
  cases isLeapYear (n + 1) <;> simp <;> omega

theorem yearCount_add_le (n k : Nat) : yearCount n + 365 * k ≤ yearCount (n + k) := by
  induction k with
  | zero => simp
  | succ k ih =>
    have h := yearCount_succ (n + k)
    have h365 : 365 ≤ (if isLeapYear (n + k + 1) then 366 else 365) := by
      cases isLeapYear (n + k + 1) <;> simp
    have hg : yearCount (n + (k + 1)) = yearCount (n + k + 1) := by
      rw [Nat.add_assoc]
    omega

theorem daysBeforeMonth_succ (y m : Nat) :
    daysBeforeMonth y (m + 1) = daysBeforeMonth y m + daysInMonth y m := rfl

theorem daysBeforeMonth_add_le (y m k : Nat) :
    daysBeforeMonth y m ≤ daysBeforeMonth y (m + k) := by
  induction k with
  | zero => exact Nat.le_refl _
  | succ k ih =>
    calc daysBeforeMonth y m ≤ daysBeforeMonth y (m + k) := ih
    _ ≤ daysBeforeMonth y (m + k) + daysInMonth y (m + k) := Nat.le_add_right _ _
    _ = daysBeforeMonth y (m + k + 1) := (daysBeforeMonth_succ y (m + k)).symm

theorem daysBeforeMonth_13 (y : Nat) :
    daysBeforeMonth y 13 = if isLeapYear y then 366 else 365 := by
  cases h : isLeapYear y <;>
    simp [daysBeforeMonth, daysInMonth, h]

theorem daysBeforeMonth_d_le (y m d : Nat) (hm : m ≤ 12) (hd : d ≤ daysInMonth y m) :
    daysBeforeMonth y m + d ≤ if isLeapYear y then 366 else 365 := by
  have h1 : daysBeforeMonth y m + d ≤ daysBeforeMonth y (m + 1) := by
    rw [daysBeforeMonth_succ]; omega
  have h2 : daysBeforeMonth y (m + 1) ≤ daysBeforeMonth y 13 := by
    have := daysBeforeMonth_add_le y (m + 1) (12 - m)
    have he : m + 1 + (12 - m) = 13 := by omega
    rwa [he] at this
  rw [← daysBeforeMonth_13]; omega

theorem rataDie_lt_of_dateLt {a b : Nat × Nat × Nat}
    (ha : validDate a) (hb : validDate b) (h : dateLt a b = true) :
    rataDie a < rataDie b := by
  obtain ⟨y, m, d⟩ := a
  obtain ⟨y', m', d'⟩ := b
  obtain ⟨hy1, hm1, hm12, hd1, hdM⟩ := ha
  obtain ⟨hy1', hm1', hm12', hd1', hdM'⟩ := hb
  simp only [dateLt, Bool.or_eq_true, Bool.and_eq_true, decide_eq_true_eq,
    beq_iff_eq] at h
  simp only [rataDie]
  rcases h with hlt | ⟨rfl, h⟩
  · -- strictly earlier year: bound the earlier date by its year end
    have hbound : daysBeforeMonth y m + d ≤ if isLeapYear y then 366 else 365 :=
      daysBeforeMonth_d_le y m d hm12 hdM
    have hstep : yearCount y = yearCount (y - 1) +
        (if isLeapYear y then 366 else 365) := by
      have := yearCount_succ (y - 1)
      have hy : y - 1 + 1 = y := by omega
      rwa [hy] at this
    have hmono : yearCount y + 365 * (y' - 1 - y) ≤ yearCount (y' - 1) := by
      have := yearCount_add_le y (y' - 1 - y)
      have he : y + (y' - 1 - y) = y' - 1 := by omega
      rwa [he] at this
    simp only [yearCount] at hstep hmono
    omega
  · rcases h with hlt | ⟨rfl, hlt⟩
    · -- same year, strictly earlier month
      have h1 : daysBeforeMonth y m + d ≤ daysBeforeMonth y (m + 1) := by
        rw [daysBeforeMonth_succ]; omega
      have h2 : daysBeforeMonth y (m + 1) ≤ daysBeforeMonth y m' := by
        have := daysBeforeMonth_add_le y (m + 1) (m' - (m + 1))
        have he : m + 1 + (m' - (m + 1)) = m' := by omega
        rwa [he] at this
      omega
    · -- same year and month, strictly earlier day
      omega

theorem dateLt_trichotomy (a b : Nat × Nat × Nat) :
    dateLt a b = true ∨ a = b ∨ dateLt b a = true := by
  obtain ⟨y, m, d⟩ := a
  obtain ⟨y', m', d'⟩ := b
  simp only [dateLt, Bool.or_eq_true, Bool.and_eq_true, decide_eq_true_eq,
    beq_iff_eq, Prod.mk.injEq]
  omega

theorem dateLt_iff_rataDie_lt {a b : Nat × Nat × Nat}
    (ha : validDate a) (hb : validDate b) :
    dateLt a b = true ↔ rataDie a < rataDie b := by
  constructor
  · exact rataDie_lt_of_dateLt ha hb
  · intro h
    rcases dateLt_trichotomy a b with h1 | h1 | h1
    · exact h1
    · subst h1; omega
    · exact absurd (rataDie_lt_of_dateLt hb ha h1) (by omega)

theorem mkDate_valid {y m d : Nat} {t : Nat × Nat × Nat}
    (h : mkDate y m d = some t) : validDate t := by
  unfold mkDate at h
  split at h
  · next hc =>
    obtain rfl := Option.some.inj h
    exact ⟨hc.1.1, hc.1.2.1, hc.1.2.2, hc.2.1, hc.2.2⟩
  · exact Option.noConfusion h

theorem parseIsoDate_valid {s : String} {t : Nat × Nat × Nat}
    (h : parseIsoDate s = some t) : validDate t := by
  unfold parseIsoDate at h
  split at h <;> try exact Option.noConfusion h
  split at h <;> try exact Option.noConfusion h
  split at h <;> try exact Option.noConfusion h
  split at h <;> try exact Option.noConfusion h
  split at h <;> try exact Option.noConfusion h
  exact mkDate_valid h

/-- C4: for every pair of strings, `validate_date_order d1 d2` is `true`
iff both strings parse under the `%Y-%m-%d` format as real calendar
dates and the second date is strictly chronologically after the first
(strictly larger serial day number); it is `false` — and the function is
total, never raising — for equal dates, reversed dates, or any parse
failure. -/
theorem validate_date_order_iff_chronological (d1 d2 : String) :
    validate_date_order d1 d2 = true ↔
      ∃ a b, parseIsoDate d1 = some a ∧ parseIsoDate d2 = some b ∧
        rataDie a < rataDie b := by
  unfold validate_date_order
  cases h1 : parseIsoDate d1 <;> cases h2 : parseIsoDate d2 <;>
    simp only [Option.some.injEq]
  · simp
  · simp
  · simp
  · rename_i a b
    rw [dateLt_iff_rataDie_lt (parseIsoDate_valid h1) (parseIsoDate_valid h2)]
    constructor
    · intro h; exact ⟨a, b, rfl, rfl, h⟩
    · rintro ⟨a', b', rfl, rfl, h⟩; exact h

/-- Witness for C4: the biconditional evaluated at the dates of scenario
B, in both orders, and at an equal pair and an unparsable string. -/
theorem validate_date_order_iff_chronological_witness :
    validate_date_order "2024-01-18" "2024-01-20" = true ∧
    validate_date_order "2024-01-20" "2024-01-18" = false ∧
    validate_date_order "2024-01-20" "2024-01-20" = false ∧
    validate_date_order "not a date" "2024-01-20" = false ∧
    (validate_date_order "2024-01-18" "2024-01-20" = true ↔
      ∃ a b, parseIsoDate "2024-01-18" = some a ∧
        parseIsoDate "2024-01-20" = some b ∧ rataDie a < rataDie b) :=
  ⟨by decide, by decide, by decide, by decide,
    validate_date_order_iff_chronological "2024-01-18" "2024-01-20"⟩

/-! ## Claims about the `confirm` step (C1, C3) and the failure frame (C2) -/

theorem segIn_append (pre mid suf : String) :
    segIn mid.data (pre ++ mid ++ suf).data :=
  ⟨pre.data, suf.data, by simp [String.data_append, List.append_assoc]⟩

/-- C1: in the `confirm` state the turn is interpreted as exactly one of
three intents.  An exact affirmative hands the accumulated data to the
booking sink, moves the step to `complete`, and replies with the
sink-assigned identifier and `complete = true`; an exact negative moves
the step to `name` and empties the data completely; anything else leaves
the session untouched and re-prompts with `complete = false`. -/
theorem confirm_step_three_intents
    (en pd : String → Option String)
    (sink : String → BookingData → Except Unit BookingRecord)
    (st : SessionState) (msg : String) (hstep : st.step = .confirm) :
    (affirmWords.contains (pyStrip (pyLower msg)) = true →
      ∀ r, sink st.session_id st.data = .ok r →
        process_conversation_step en pd sink st msg =
          (.ok ⟨confirmedReply r.id, true, some r⟩, { st with step := .complete }) ∧
        segIn (toString r.id).data (confirmedReply r.id).data) ∧
    (affirmWords.contains (pyStrip (pyLower msg)) = false →
      negWords.contains (pyStrip (pyLower msg)) = true →
        process_conversation_step en pd sink st msg =
          (.ok ⟨cancelReply, false, none⟩,
            { st with step := .name, data := emptyData })) ∧
    (affirmWords.contains (pyStrip (pyLower msg)) = false →
      negWords.contains (pyStrip (pyLower msg)) = false →
        process_conversation_step en pd sink st msg =
          (.ok ⟨confirmReprompt, false, none⟩, st)) := by
  refine ⟨?_, ?_, ?_⟩
  · intro haff r hsink
    refine ⟨?_, ?_⟩
    · simp only [process_conversation_step, hstep, haff, if_true, hsink]
    · exact segIn_append "ðŸŽ‰ Booking confirmed! Your reservation ID is #"
        (toString r.id) ". Thank you for choosing our hotel!"
  · intro haff hneg
    simp only [process_conversation_step, hstep, haff, hneg, if_true,
      Bool.false_eq_true, if_false]
    rfl
  · intro haff hneg
    simp only [process_conversation_step, hstep, haff, hneg,
      Bool.false_eq_true, if_false]

/-- A name/date extractor that never fires (used by witnesses). -/
def enNone : String → Option String := fun _ => none

/-- A date extractor echoing the ISO strings used by witnesses. -/
def pdEcho : String → Option String :=
  fun s => if s = "2024-01-18" then some "2024-01-18" else none

/-- The fully collected data dictionary used by witnesses. -/
def dataFull : BookingData :=
  { name := some "Alice", checkin_date := some "2024-01-18",
    checkout_date := some "2024-01-20", guests := some 2,
    breakfast := some true, payment_method := some "Credit Card" }

/-- A session sitting at the `confirm` step. -/
def stateConfirm : SessionState :=
  { session_id := "sess-1", step := .confirm, data := dataFull }

/-- The record a successful sink returns in witnesses. -/
def recW : BookingRecord :=
  { id := 7, session_id := "sess-1", name := "Alice",
    checkin := "2024-01-18", checkout := "2024-01-20", guests := 2,
    breakfast := true, payment_method := "Credit Card",
    created_at := "2024-01-01 00:00:00" }

/-- A sink that persists successfully. -/
def sinkOkW : String → BookingData → Except Unit BookingRecord :=
  fun _ _ => .ok recW

/-- A sink whose insert fails. -/
def sinkErrW : String → BookingData → Except Unit BookingRecord :=
  fun _ _ => .error ()

/-- Witness for C1: all three intents evaluated on a session at
`confirm`: "Yes" completes with the sink identifier in the reply,
"cancel" resets step and data, "hmm" changes nothing. -/
theorem confirm_step_three_intents_witness :
    (affirmWords.contains (pyStrip (pyLower "Yes")) = true ∧
      process_conversation_step enNone enNone sinkOkW stateConfirm "Yes" =
        (.ok ⟨confirmedReply 7, true, some recW⟩,
          { stateConfirm with step := .complete }) ∧
      segIn (toString (7 : Nat)).data (confirmedReply 7).data) ∧
    (negWords.contains (pyStrip (pyLower "cancel")) = true ∧
      process_conversation_step enNone enNone sinkOkW stateConfirm "cancel" =
        (.ok ⟨cancelReply, false, none⟩,
          { stateConfirm with step := .name, data := emptyData })) ∧
    process_conversation_step enNone enNone sinkOkW stateConfirm "hmm" =
      (.ok ⟨confirmReprompt, false, none⟩, stateConfirm) :=
  ⟨⟨by decide,
    (confirm_step_three_intents enNone enNone sinkOkW stateConfirm "Yes" rfl).1
      (by decide) recW rfl⟩,
   ⟨by decide,
    (confirm_step_three_intents enNone enNone sinkOkW stateConfirm "cancel" rfl).2.1
      (by decide) (by decide)⟩,
   (confirm_step_three_intents enNone enNone sinkOkW stateConfirm "hmm" rfl).2.2
     (by decide) (by decide)⟩

/-- C2: in every data-collecting state an extractor failure leaves the
whole session (step and data) unchanged and returns a re-prompt; in the
`checkout` state a date that parses but fails the order validator is
treated the same way, with the re-prompt naming the stored check-in
date. -/
theorem extractor_failure_no_mutation
    (en pd : String → Option String)
    (sink : String → BookingData → Except Unit BookingRecord)
    (st : SessionState) (msg : String) :
    (st.step = .name → en msg = none →
      process_conversation_step en pd sink st msg =
        (.ok ⟨nameReprompt, false, none⟩, st)) ∧
    (st.step = .checkin → pd msg = none →
      process_conversation_step en pd sink st msg =
        (.ok ⟨checkinReprompt, false, none⟩, st)) ∧
    (st.step = .checkout → pd msg = none →
      process_conversation_step en pd sink st msg =
        (.ok ⟨checkoutReprompt, false, none⟩, st)) ∧
    (st.step = .guests → parse_guests msg = none →
      process_conversation_step en pd sink st msg =
        (.ok ⟨guestsReprompt, false, none⟩, st)) ∧
    (st.step = .breakfast → is_yes msg = none →
      process_conversation_step en pd sink st msg =
        (.ok ⟨breakfastReprompt, false, none⟩, st)) ∧
    (st.step = .checkout → ∀ d ci, pd msg = some d → d ≠ "" →
      st.data.checkin_date = some ci → validate_date_order ci d = false →
        process_conversation_step en pd sink st msg =
          (.ok ⟨checkoutOrderReply ci, false, none⟩, st) ∧
        segIn ci.data (checkoutOrderReply ci).data) := by
  refine ⟨?_, ?_, ?_, ?_, ?_, ?_⟩
  · intro hstep hex
    simp only [process_conversation_step, hstep, hex, truthyStr, Bool.false_eq_true,
      if_false]
  · intro hstep hex
    simp only [process_conversation_step, hstep, hex, truthyStr, Bool.false_eq_true,
      if_false]
  · intro hstep hex
    simp only [process_conversation_step, hstep, hex, truthyStr, Bool.false_eq_true,
      if_false]
  · intro hstep hex
    simp only [process_conversation_step, hstep, hex, truthyNat, Bool.false_eq_true,
      if_false]
  · intro hstep hex
    simp only [process_conversation_step, hstep, hex]
  · intro hstep d ci hex hne hci hord
    have hd : d.data.isEmpty = false := by
      cases hdd : d.data.isEmpty
      · rfl
      · exact absurd (String.ext (by simpa [List.isEmpty_iff] using hdd)) hne
    constructor
    · simp only [process_conversation_step, hstep, hex, truthyStr, hd,
        Bool.not_false, if_true, Option.getD_some, hci, hord, Bool.false_eq_true,
        if_false]
    · exact ⟨"Check-out date must be after check-in date (".data,
        "). Please provide a later check-out date.".data,
        by simp [checkoutOrderReply, String.data_append, List.append_assoc]⟩

/-- A session sitting at the `checkout` step with the scenario-B
check-in date stored. -/
def stateCheckout : SessionState :=
  { session_id := "sess-1", step := .checkout,
    data := { name := some "Alice", checkin_date := some "2024-01-20" } }

/-- Witness for C2, scenario B: with check-in `2024-01-20` stored, the
turn `2024-01-18` parses but fails the order validator; the session is
unchanged and the re-prompt names the stored check-in date.  A failing
name extraction at the `name` step is also evaluated. -/
theorem extractor_failure_no_mutation_witness :
    (validate_date_order "2024-01-20" "2024-01-18" = false ∧
      process_conversation_step enNone pdEcho sinkOkW stateCheckout "2024-01-18" =
        (.ok ⟨checkoutOrderReply "2024-01-20", false, none⟩, stateCheckout) ∧
      segIn "2024-01-20".data (checkoutOrderReply "2024-01-20").data) ∧
    process_conversation_step enNone pdEcho sinkOkW
        ⟨"sess-1", .name, emptyData⟩ "zzz" =
      (.ok ⟨nameReprompt, false, none⟩, ⟨"sess-1", .name, emptyData⟩) :=
  ⟨⟨by decide,
    (extractor_failure_no_mutation enNone pdEcho sinkOkW stateCheckout
        "2024-01-18").2.2.2.2.2 rfl "2024-01-18" "2024-01-20" rfl (by decide)
      rfl (by decide)⟩,
   (extractor_failure_no_mutation enNone pdEcho sinkOkW
       ⟨"sess-1", .name, emptyData⟩ "zzz").1 rfl rfl⟩

/-- C3: when the booking sink fails on an affirmative `confirm` turn the
error propagates and the session keeps step `confirm` and its data, so a
later affirmative turn with a working sink completes the booking without
re-entering any field. -/
theorem sink_failure_session_preserved
    (en pd : String → Option String)
    (sink : String → BookingData → Except Unit BookingRecord)
    (st : SessionState) (msg : String)
    (hstep : st.step = .confirm)
    (haff : affirmWords.contains (pyStrip (pyLower msg)) = true)
    (hsink : sink st.session_id st.data = .error ()) :
    process_conversation_step en pd sink st msg = (.error (), st) ∧
    (∀ (sink2 : String → BookingData → Except Unit BookingRecord)
        (msg2 : String) (r : BookingRecord),
      affirmWords.contains (pyStrip (pyLower msg2)) = true →
      sink2 st.session_id st.data = .ok r →
        process_conversation_step en pd sink2 st msg2 =
          (.ok ⟨confirmedReply r.id, true, some r⟩,
            { st with step := .complete })) := by
  constructor
  · simp only [process_conversation_step, hstep, haff, if_true, hsink]
  · intro sink2 msg2 r haff2 hsink2
    simp only [process_conversation_step, hstep, haff2, if_true, hsink2]

/-- Witness for C3: a failing sink on "confirm" leaves the session at
`confirm` with its data; retrying with a working sink completes. -/
theorem sink_failure_session_preserved_witness :
    process_conversation_step enNone enNone sinkErrW stateConfirm "confirm" =
      (.error (), stateConfirm) ∧
    process_conversation_step enNone enNone sinkOkW stateConfirm "confirm" =
      (.ok ⟨confirmedReply 7, true, some recW⟩,
        { stateConfirm with step := .complete }) :=
  ⟨(sink_failure_session_preserved enNone enNone sinkErrW stateConfirm "confirm"
      rfl (by decide) rfl).1,
   (sink_failure_session_preserved enNone enNone sinkErrW stateConfirm "confirm"
      rfl (by decide) rfl).2 sinkOkW "confirm" recW (by decide) rfl⟩

/-! ## Claim C7: the payment step is total and always advances -/

def foldInv (pm : String) (seen : List String) :
    Option String × Nat × Nat → Prop
  | (none, bn, bd) => bn = 0 ∧ bd = 1 ∧
      ∀ m ∈ seen, ¬(60 * scoreDen pm m < scoreNum pm m)
  | (some b, bn, bd) => b ∈ seen ∧ bn = scoreNum pm b ∧ bd = scoreDen pm b ∧
      0 < bd ∧ 60 * bd < bn ∧
      ∀ m ∈ seen, scoreNum pm m * bd ≤ bn * scoreDen pm m

theorem paymentFold_step_inv (pm m : String) (seen : List String)
    (hm : 0 < m.length) (bo : Option String) (bn bd : Nat)
    (h : foldInv pm seen (bo, bn, bd)) :
    foldInv pm (seen ++ [m])
      (if bn * scoreDen pm m < scoreNum pm m * bd ∧
          60 * scoreDen pm m < scoreNum pm m then
        (some m, scoreNum pm m, scoreDen pm m)
      else (bo, bn, bd)) := by
  by_cases hcond : bn * scoreDen pm m < scoreNum pm m * bd ∧
      60 * scoreDen pm m < scoreNum pm m
  · rw [if_pos hcond]
    obtain ⟨hlt, h60⟩ := hcond
    have hdpos : 0 < scoreDen pm m := by simp only [scoreDen]; omega
    refine ⟨by simp, rfl, rfl, hdpos, h60, ?_⟩
    intro m' hm'
    rcases List.mem_append.mp hm' with hm' | hm'
    · cases bo with
      | none =>
        obtain ⟨hbn, hbd, hall⟩ := h
        have h1 : scoreNum pm m' ≤ 60 * scoreDen pm m' :=
          Nat.not_lt.mp (hall m' hm')
        calc scoreNum pm m' * scoreDen pm m
            ≤ (60 * scoreDen pm m') * scoreDen pm m := mul_le_mul_right' h1 _
          _ = (60 * scoreDen pm m) * scoreDen pm m' := by ring
          _ ≤ scoreNum pm m * scoreDen pm m' :=
              mul_le_mul_right' (le_of_lt h60) _
      | some b =>
        obtain ⟨hbmem, hbn, hbd, hbdpos, hb60, hall⟩ := h
        subst hbn; subst hbd
        have hmax := hall m' hm'
        have h3 : scoreNum pm m' * scoreDen pm m * scoreDen pm b ≤
            scoreNum pm m * scoreDen pm m' * scoreDen pm b := by
          calc scoreNum pm m' * scoreDen pm m * scoreDen pm b
              = scoreNum pm m' * scoreDen pm b * scoreDen pm m := by ring
            _ ≤ scoreNum pm b * scoreDen pm m' * scoreDen pm m :=
                mul_le_mul_right' hmax _
            _ = scoreNum pm b * scoreDen pm m * scoreDen pm m' := by ring
            _ ≤ scoreNum pm m * scoreDen pm b * scoreDen pm m' :=
                mul_le_mul_right' (le_of_lt hlt) _
            _ = scoreNum pm m * scoreDen pm m' * scoreDen pm b := by ring
        exact Nat.le_of_mul_le_mul_right h3 hbdpos
    · simp only [List.mem_singleton] at hm'
      subst hm'
      exact Nat.le_refl _
  · rw [if_neg hcond]
    rw [not_and_or] at hcond
    cases bo with
    | none =>
      obtain ⟨hbn, hbd, hall⟩ := h
      subst hbn; subst hbd
      refine ⟨rfl, rfl, ?_⟩
      intro m' hm'
      rcases List.mem_append.mp hm' with hm' | hm'
      · exact hall m' hm'
      · simp only [List.mem_singleton] at hm'
        subst hm'
        intro habs
        rcases hcond with hc | hc
        · exact hc (by simpa using Nat.lt_of_le_of_lt (Nat.zero_le _) habs)
        · exact hc habs
    | some b =>
      obtain ⟨hbmem, hbn, hbd, hbdpos, hb60, hall⟩ := h
      subst hbn; subst hbd
      refine ⟨by simp [hbmem], rfl, rfl, hbdpos, hb60, ?_⟩
      intro m' hm'
      rcases List.mem_append.mp hm' with hm' | hm'
      · exact hall m' hm'
      · simp only [List.mem_singleton] at hm'
        subst hm'
        rcases hcond with hc | hc
        · exact Nat.not_lt.mp hc
        · have hn : scoreNum pm m' ≤ 60 * scoreDen pm m' := Nat.not_lt.mp hc
          calc scoreNum pm m' * scoreDen pm b
              ≤ (60 * scoreDen pm m') * scoreDen pm b := mul_le_mul_right' hn _
            _ = (60 * scoreDen pm b) * scoreDen pm m' := by ring
            _ ≤ scoreNum pm b * scoreDen pm m' :=
                mul_le_mul_right' (le_of_lt hb60) _

theorem paymentFold_inv (pm : String) (ms : List String)
    (hms : ∀ m ∈ ms, 0 < m.length) :
    ∀ seen acc, foldInv pm seen acc →
      foldInv pm (seen ++ ms) (paymentFold pm ms acc) := by
  induction ms with
  | nil => intro seen acc h; simpa using h
  | cons m rest ih =>
    intro seen acc h
    have hm : 0 < m.length := hms m (by simp)
    have hrest : ∀ m' ∈ rest, 0 < m'.length := fun m' hm' => hms m' (by simp [hm'])
    obtain ⟨bo, bn, bd⟩ := acc
    have hstep := paymentFold_step_inv pm m seen hm bo bn bd h
    have hres := ih hrest (seen ++ [m]) _ hstep
    rw [paymentFold]
    simpa [List.append_assoc] using hres

theorem paymentBest_spec (pm : String) :
    (paymentBest pm = none →
      ∀ m ∈ valid_methods, ¬(60 * scoreDen pm m < scoreNum pm m)) ∧
    (∀ b, paymentBest pm = some b → b ∈ valid_methods ∧
      60 * scoreDen pm b < scoreNum pm b ∧
      ∀ m ∈ valid_methods,
        scoreNum pm m * scoreDen pm b ≤ scoreNum pm b * scoreDen pm m) := by
  have hlen : ∀ m ∈ valid_methods, 0 < m.length := by decide
  have h0 : foldInv pm [] (none, 0, 1) := ⟨rfl, rfl, by simp⟩
  have h := paymentFold_inv pm valid_methods hlen [] (none, 0, 1) h0
  simp only [List.nil_append] at h
  rcases hres : paymentFold pm valid_methods (none, 0, 1) with ⟨bo, bn, bd⟩
  rw [hres] at h
  constructor
  · intro hnone
    have hbo : bo = none := by simpa [paymentBest, hres] using hnone
    subst hbo
    exact h.2.2
  · intro b hb
    have hbo : bo = some b := by simpa [paymentBest, hres] using hb
    subst hbo
    obtain ⟨hmem, hbn, hbd, hpos, h60, hall⟩ := h
    subst hbn; subst hbd
    exact ⟨hmem, h60, hall⟩

/-- C7: the payment step always advances to `confirm` and always stores
a payment value (never absent): a skip token stores the sentinel
"Not specified"; otherwise the canonical method with the highest
similarity score strictly above 60 is stored in title case; when no
method clears the threshold the title-cased input itself is stored.
Scenario E: "crdit card" resolves to "Credit Card", "bitcoin" to
"Bitcoin". -/
theorem payment_step_total_and_resolution
    (en pd : String → Option String)
    (sink : String → BookingData → Except Unit BookingRecord)
    (st : SessionState) (msg : String) (hstep : st.step = .payment) :
    ((process_conversation_step en pd sink st msg).2.step = .confirm ∧
      (process_conversation_step en pd sink st msg).2.data.payment_method =
        some (resolve_payment (pyLower (pyStrip msg)))) ∧
    (skipWords.contains (pyLower (pyStrip msg)) = true →
      resolve_payment (pyLower (pyStrip msg)) = "Not specified") ∧
    (skipWords.contains (pyLower (pyStrip msg)) = false →
      ∀ b, paymentBest (pyLower (pyStrip msg)) = some b →
        resolve_payment (pyLower (pyStrip msg)) = pyTitle b ∧
        b ∈ valid_methods ∧
        60 * scoreDen (pyLower (pyStrip msg)) b < scoreNum (pyLower (pyStrip msg)) b ∧
        ∀ m ∈ valid_methods,
          scoreNum (pyLower (pyStrip msg)) m * scoreDen (pyLower (pyStrip msg)) b ≤
            scoreNum (pyLower (pyStrip msg)) b * scoreDen (pyLower (pyStrip msg)) m) ∧
    (skipWords.contains (pyLower (pyStrip msg)) = false →
      paymentBest (pyLower (pyStrip msg)) = none →
        resolve_payment (pyLower (pyStrip msg)) = pyTitle (pyLower (pyStrip msg)) ∧
        ∀ m ∈ valid_methods,
          ¬(60 * scoreDen (pyLower (pyStrip msg)) m <
              scoreNum (pyLower (pyStrip msg)) m)) ∧
    (resolve_payment (pyLower (pyStrip "crdit card")) = "Credit Card" ∧
      resolve_payment (pyLower (pyStrip "bitcoin")) = "Bitcoin") := by
  refine ⟨?_, ?_, ?_, ?_, by decide, by decide⟩
  · simp only [process_conversation_step, hstep]
    rcases st.data.name with _ | nm <;> rcases st.data.checkin_date with _ | ci <;>
      rcases st.data.checkout_date with _ | co <;> rcases st.data.guests with _ | g <;>
      exact ⟨rfl, rfl⟩
  · intro hskip
    unfold resolve_payment
    rw [hskip]
    simp
  · intro hskip b hb
    refine ⟨by unfold resolve_payment; rw [hskip, hb]; simp,
      (paymentBest_spec _).2 b hb⟩
  · intro hskip hnone
    refine ⟨by unfold resolve_payment; rw [hskip, hnone]; simp,
      (paymentBest_spec _).1 hnone⟩


/-- A session sitting at the `payment` step with all earlier fields
collected. -/
def statePayment : SessionState :=
  { session_id := "sess-1", step := .payment,
    data := { name := some "Alice", checkin_date := some "2024-01-18",
              checkout_date := some "2024-01-20", guests := some 2,
              breakfast := some true } }

/-- Witness for C7: the typo "crdit card" advances the session to
`confirm` storing the canonical "Credit Card"; the skip token and the
"bitcoin" echo are also evaluated. -/
theorem payment_step_total_and_resolution_witness :
    ((process_conversation_step enNone enNone sinkOkW statePayment "crdit card").2.step = .confirm ∧
      (process_conversation_step enNone enNone sinkOkW statePayment "crdit card").2.data.payment_method =
        some (resolve_payment (pyLower (pyStrip "crdit card")))) ∧
    (resolve_payment (pyLower (pyStrip "crdit card")) = "Credit Card" ∧
      resolve_payment (pyLower (pyStrip "bitcoin")) = "Bitcoin") ∧
    resolve_payment (pyLower (pyStrip "skip")) = "Not specified" :=
  ⟨(payment_step_total_and_resolution enNone enNone sinkOkW statePayment
      "crdit card" rfl).1,
   (payment_step_total_and_resolution enNone enNone sinkOkW statePayment
      "crdit card" rfl).2.2.2.2,
   (payment_step_total_and_resolution enNone enNone sinkOkW statePayment
      "skip" rfl).2.1 (by decide)⟩

/-! ## Claim C8: phase order of the yes/no extractor -/

/-- Number of tokens approximately matching an affirmative word at
ratio at least 70. -/

def yesTokenCount (tl : String) : Nat :=
  ((wordsOf tl.data).filter (fun w => yes_words.any (fun yw => fuzzGe w yw.data 70))).length

/-- Number of tokens approximately matching a negative word at ratio
at least 70. -/
def noTokenCount (tl : String) : Nat :=
  ((wordsOf tl.data).filter (fun w => no_words.any (fun nw => fuzzGe w nw.data 70))).length

/-- A string whose stripped character list is empty strips to `""`. -/
theorem pyStrip_eq_empty {t : String} (h : (pyStrip t).data.isEmpty = true) :
    pyStrip t = "" :=
  String.ext (List.isEmpty_iff.mp h)

/-- C8: `is_yes` applies its phases in strict order: exact membership in
the affirmative or negative list decides first (before any approximate
matching is consulted); then a whole-input fuzzy match at ratio at least
80 against the affirmative and then the negative list; then per-token
counting at ratio at least 70, returning `true` iff the affirmative
token count strictly exceeds the negative one, `false` iff the negative
count strictly exceeds, and absent on a tie or when nothing matches. -/
theorem is_yes_phase_order (t : String) :
    (yes_words.contains (pyLower (pyStrip t)) = true → is_yes t = some true) ∧
    (yes_words.contains (pyLower (pyStrip t)) = false →
      no_words.contains (pyLower (pyStrip t)) = true → is_yes t = some false) ∧
    (yes_words.contains (pyLower (pyStrip t)) = false →
      no_words.contains (pyLower (pyStrip t)) = false →
      yes_words.any (fun w => fuzzGe (pyLower (pyStrip t)).data w.data 80) = true →
      is_yes t = some true) ∧
    (yes_words.contains (pyLower (pyStrip t)) = false →
      no_words.contains (pyLower (pyStrip t)) = false →
      yes_words.any (fun w => fuzzGe (pyLower (pyStrip t)).data w.data 80) = false →
      no_words.any (fun w => fuzzGe (pyLower (pyStrip t)).data w.data 80) = true →
      is_yes t = some false) ∧
    (yes_words.contains (pyLower (pyStrip t)) = false →
      no_words.contains (pyLower (pyStrip t)) = false →
      yes_words.any (fun w => fuzzGe (pyLower (pyStrip t)).data w.data 80) = false →
      no_words.any (fun w => fuzzGe (pyLower (pyStrip t)).data w.data 80) = false →
      (noTokenCount (pyLower (pyStrip t)) < yesTokenCount (pyLower (pyStrip t)) →
        is_yes t = some true) ∧
      (yesTokenCount (pyLower (pyStrip t)) < noTokenCount (pyLower (pyStrip t)) →
        is_yes t = some false) ∧
      (yesTokenCount (pyLower (pyStrip t)) = noTokenCount (pyLower (pyStrip t)) →
        is_yes t = none)) := by
  by_cases hempty : (pyStrip t).data.isEmpty = true
  · have he : pyStrip t = "" := pyStrip_eq_empty hempty
    rw [he]
    have hy : yes_words.contains (pyLower "") = false := by decide
    refine ⟨?_, ?_, ?_, ?_, ?_⟩
    · intro hmem; rw [hy] at hmem; exact Bool.noConfusion hmem
    · intro _ hmem
      have hn : no_words.contains (pyLower "") = false := by decide
      rw [hn] at hmem; exact Bool.noConfusion hmem
    · intro _ _ hfz
      have : yes_words.any (fun w => fuzzGe (pyLower "").data w.data 80) = false := by
        decide
      rw [this] at hfz; exact Bool.noConfusion hfz
    · intro _ _ _ hfz
      have : no_words.any (fun w => fuzzGe (pyLower "").data w.data 80) = false := by
        decide
      rw [this] at hfz; exact Bool.noConfusion hfz
    · intro _ _ _ _
      have hyc : yesTokenCount (pyLower "") = 0 := by decide
      have hnc : noTokenCount (pyLower "") = 0 := by decide
      rw [hyc, hnc]
      refine ⟨by omega, by omega, ?_⟩
      intro _
      unfold is_yes
      rw [if_pos hempty]
  · refine ⟨?_, ?_, ?_, ?_, ?_⟩
    · intro hmem
      simp only [is_yes, hempty, Bool.false_eq_true, if_false, hmem, if_true]
    · intro hy hmem
      simp only [is_yes, hempty, Bool.false_eq_true, if_false, hy, hmem, if_true]
    · intro hy hn hfz
      simp only [is_yes, hempty, Bool.false_eq_true, if_false, hy, hn, hfz, if_true]
    · intro hy hn hfy hfn
      simp only [is_yes, hempty, Bool.false_eq_true, if_false, hy, hn, hfy, hfn,
        if_true]
    · intro hy hn hfy hfn
      refine ⟨?_, ?_, ?_⟩
      · intro hlt
        simp only [is_yes, hempty, Bool.false_eq_true, if_false, hy, hn, hfy, hfn,
          yesTokenCount, noTokenCount] at hlt ⊢
        rw [if_pos hlt]
      · intro hlt
        simp only [is_yes, hempty, Bool.false_eq_true, if_false, hy, hn, hfy, hfn,
          yesTokenCount, noTokenCount] at hlt ⊢
        rw [if_neg (by omega), if_pos hlt]
      · intro heq
        simp only [is_yes, hempty, Bool.false_eq_true, if_false, hy, hn, hfy, hfn,
          yesTokenCount, noTokenCount] at heq ⊢
        rw [if_neg (by omega), if_neg (by omega)]


/-- Witness for C8: "incorrect" is an exact negative-list member and
also fuzzy-matches the affirmative word "correct" at ratio 87.5, yet
the exact phase decides first giving `some false`; "yes no" produces a
1-1 token tie and is ambiguous. -/
theorem is_yes_phase_order_witness :
    no_words.contains (pyLower (pyStrip "incorrect")) = true ∧
    yes_words.any
        (fun w => fuzzGe (pyLower (pyStrip "incorrect")).data w.data 80) = true ∧
    is_yes "incorrect" = some false ∧
    is_yes "yes no" = none :=
  ⟨by decide, by decide,
   (is_yes_phase_order "incorrect").2.1 (by decide) (by decide),
   ((is_yes_phase_order "yes no").2.2.2.2 (by decide) (by decide) (by decide)
       (by decide)).2.2 (by decide)⟩

/-! ## Claims C5, C6, C10: the guest-count extractor -/

theorem isPrefList_iff (pat : List Char) : ∀ l : List Char,
    (isPrefList pat l = true ↔ ∃ t, l = pat ++ t) := by
  induction pat with
  | nil => intro l; simp [isPrefList]
  | cons p ps ih =>
    intro l
    cases l with
    | nil => simp [isPrefList]
    | cons x xs =>
      simp only [isPrefList, Bool.and_eq_true, beq_iff_eq, ih xs, List.cons_append,
        List.cons.injEq]
      constructor
      · rintro ⟨rfl, t, rfl⟩; exact ⟨t, rfl, rfl⟩
      · rintro ⟨t, rfl, rfl⟩; exact ⟨rfl, t, rfl⟩

theorem segIn_cons (pat : List Char) (x : Char) (xs : List Char) :
    segIn pat (x :: xs) ↔ (∃ t, x :: xs = pat ++ t) ∨ segIn pat xs := by
  constructor
  · rintro ⟨s, t, h⟩
    cases s with
    | nil => exact Or.inl ⟨t, by simpa using h⟩
    | cons c s2 =>
      simp only [List.cons_append, List.cons.injEq] at h
      exact Or.inr ⟨s2, t, h.2⟩
  · rintro (⟨t, h⟩ | ⟨s, t, h⟩)
    · exact ⟨[], t, by simpa using h⟩
    · exact ⟨x :: s, t, by simp [h]⟩

/-- The boolean substring test agrees with the substring relation. -/
theorem segContains_iff (pat : List Char) : ∀ l : List Char,
    (segContains pat l = true ↔ segIn pat l) := by
  intro l
  induction l with
  | nil =>
    simp only [segContains, isPrefList_iff, segIn]
    constructor
    · rintro ⟨t, h⟩; exact ⟨[], t, by simpa using h⟩
    · rintro ⟨s, t, h⟩
      cases s with
      | nil => exact ⟨t, by simpa using h⟩
      | cons c s2 => exact absurd h (by simp)
  | cons x xs ih =>
    simp only [segContains, Bool.or_eq_true, isPrefList_iff, ih, segIn_cons]

theorem ws_not_digit {c : Char} (h : isPyWs c = true) : isAsciiDigit c = false := by
  simp only [isPyWs, Bool.or_eq_true, beq_iff_eq] at h
  rcases h with ((((h | h) | h) | h) | h) | h <;> subst h <;> decide

theorem stripList_nil_all_ws {l : List Char} (h : stripList l = []) :
    ∀ c ∈ l, isPyWs c = true := by
  unfold stripList at h
  rw [List.reverse_eq_nil_iff, List.dropWhile_eq_nil_iff] at h
  intro c hc
  have hc2 : c ∈ l.takeWhile isPyWs ++ l.dropWhile isPyWs := by
    rw [List.takeWhile_append_dropWhile]
    exact hc
  rcases List.mem_append.mp hc2 with hm | hm
  · exact List.mem_takeWhile_imp hm
  · exact h c (List.mem_reverse.mpr hm)

theorem digitRuns_all_ws : ∀ l : List Char, (∀ c ∈ l, isPyWs c = true) →
    digitRuns l = [] := by
  intro l
  induction l with
  | nil => intro _; rfl
  | cons c cs ih =>
    intro h
    show digitRunsAux (c :: cs) [] = []
    rw [digitRunsAux, if_neg (by simp [ws_not_digit (h c (by simp))]),
      if_pos (by simp)]
    exact ih (fun c2 hc2 => h c2 (by simp [hc2]))

/-- Strategy 1 of `parse_guests`: a solo-indicator substring of the
lowercased trimmed input yields one guest. -/
def guestSolo (t : String) : Option Nat :=
  if single_indicators.any
      (fun ind => segContains ind.data (pyLower (pyStrip t)).data) then some 1
  else none

/-- Strategy 2: the first digit run whose value lies in 1..10; runs
with out-of-range values are skipped. -/
def guestDigits (t : String) : Option Nat :=
  (digitRuns t.data).findSome?
    (fun run =>
      let n := readNat run
      if 1 ≤ n ∧ n ≤ 10 then some n else none)

/-- Strategy 3: the first cleaned token exactly matching the
word-to-number table. -/
def guestExactWord (t : String) : Option Nat :=
  (wordsOf (pyLower (pyStrip t)).data).findSome?
    (fun w => word_to_num.findSome?
      (fun p => if cleanTok w == p.1.data then some p.2 else none))

/-- Strategy 4: the first cleaned token within ratio 80 of a table
word, in table order. -/
def guestFuzzyWord (t : String) : Option Nat :=
  (wordsOf (pyLower (pyStrip t)).data).findSome?
    (fun w => word_to_num.findSome?
      (fun p => if fuzzGe (cleanTok w) p.1.data 80 then some p.2 else none))

/-- C5: `parse_guests` is exactly the ordered fallback chain of its four
strategies — solo indicator, then first in-range digit run, then exact
word-table token, then fuzzy word-table token — and is absent exactly
when all four fail. -/
theorem parse_guests_eq_strategy_chain (t : String) :
    parse_guests t =
      ((guestSolo t).orElse (fun _ => (guestDigits t).orElse (fun _ =>
        (guestExactWord t).orElse (fun _ => guestFuzzyWord t)))) := by
  by_cases hempty : (pyStrip t).data.isEmpty = true
  · have he : pyStrip t = "" := pyStrip_eq_empty hempty
    have hsolo : guestSolo t = none := by unfold guestSolo; rw [he]; decide
    have hdig : guestDigits t = none := by
      unfold guestDigits
      rw [digitRuns_all_ws t.data (stripList_nil_all_ws (List.isEmpty_iff.mp hempty))]
      rfl
    have hex : guestExactWord t = none := by unfold guestExactWord; rw [he]; decide
    have hfz : guestFuzzyWord t = none := by unfold guestFuzzyWord; rw [he]; decide
    rw [hsolo, hdig, hex, hfz]
    unfold parse_guests
    rw [if_pos hempty]
    rfl
  · unfold parse_guests
    rw [if_neg hempty]
    by_cases hs : single_indicators.any
        (fun ind => segContains ind.data (pyLower (pyStrip t)).data) = true
    · rw [if_pos hs]
      have hsolo : guestSolo t = some 1 := by unfold guestSolo; rw [if_pos hs]
      rw [hsolo]
      rfl
    · rw [if_neg hs]
      have hsolo : guestSolo t = none := by
        unfold guestSolo; rw [if_neg hs]
      rw [hsolo]
      show _ = (guestDigits t).orElse _
      unfold guestDigits guestExactWord guestFuzzyWord
      cases hd : (digitRuns t.data).findSome?
          (fun run =>
            let n := readNat run
            if 1 ≤ n ∧ n ≤ 10 then some n else none) with
      | some n => rfl
      | none =>
        cases hx : (wordsOf (pyLower (pyStrip t)).data).findSome?
            (fun w => word_to_num.findSome?
              (fun p => if cleanTok w == p.1.data then some p.2 else none)) with
        | some n => rfl
        | none => rfl

/-- C10: the solo check of `parse_guests` is a raw substring containment
test on the lowercased trimmed input, run before the digit scan: any
input containing a solo indicator anywhere — also inside a longer word,
as in "members", "some" or "home" — yields one guest even when an
explicit digit in 1..10 is present. -/
theorem parse_guests_solo_substring_short_circuit :
    (∀ t : String,
      (∃ ind ∈ single_indicators, segIn ind.data (pyLower (pyStrip t)).data) →
        parse_guests t = some 1) ∧
    parse_guests "4 members" = some 1 ∧
    parse_guests "some 4 people" = some 1 ∧
    parse_guests "4 at home" = some 1 := by
  refine ⟨?_, by decide, by decide, by decide⟩
  rintro t ⟨ind, hmem, hseg⟩
  have hb : segContains ind.data (pyLower (pyStrip t)).data = true :=
    (segContains_iff _ _).mpr hseg
  have hany : single_indicators.any
      (fun i => segContains i.data (pyLower (pyStrip t)).data) = true :=
    List.any_eq_true.mpr ⟨ind, hmem, hb⟩
  have hne : ¬((pyStrip t).data.isEmpty = true) := by
    intro hempty
    rw [pyStrip_eq_empty hempty] at hseg
    obtain ⟨s, u, habs⟩ := hseg
    have hpz : (pyLower "").data = [] := by decide
    rw [hpz] at habs
    have h0 : s ++ ind.data ++ u = [] := habs.symm
    rw [List.append_eq_nil, List.append_eq_nil] at h0
    have hnonempty : ∀ i ∈ single_indicators, i.data.isEmpty = false := by decide
    have hi := hnonempty ind hmem
    rw [h0.1.2] at hi
    exact absurd hi (by decide)
  unfold parse_guests
  rw [if_neg hne, if_pos hany]

/-- Witness for C10: "4 members" contains the indicator "me" inside
"members", so the extractor returns 1 instead of the digit 4. -/
theorem parse_guests_solo_substring_short_circuit_witness :
    (∃ ind ∈ single_indicators,
      segIn ind.data (pyLower (pyStrip "4 members")).data) ∧
    parse_guests "4 members" = some 1 :=
  ⟨⟨"me", by decide, "4 ".data, "mbers".data, by decide⟩,
   parse_guests_solo_substring_short_circuit.1 "4 members"
     ⟨"me", by decide, "4 ".data, "mbers".data, by decide⟩⟩

/-- Counterexample for C6: `parse_guests "a dozen"` is not absent — the
token "a" is in the word-to-number table (value 1), so the extractor
returns 1 before ever considering that "dozen" means an out-of-range
count. -/
theorem parse_guests_a_dozen_counterexample :
    parse_guests "a dozen" = some 1 ∧ parse_guests "a dozen" ≠ none := by
  refine ⟨by decide, ?_⟩
  intro h
  rw [show parse_guests "a dozen" = some 1 from by decide] at h
  exact Option.noConfusion h

/-- C6 amended: `parse_guests "just me"` returns 1, and
`parse_guests "a dozen"` returns 1 as well (the article "a" matches the
word table before any range consideration), rather than absent. -/
theorem parse_guests_scenario_d_amended :
    parse_guests "just me" = some 1 ∧ parse_guests "a dozen" = some 1 :=
  ⟨by decide, by decide⟩

/-! ## Claim C9: fields are populated strictly in step order -/

/-- The exact shape of the accumulated data at each step: the populated
fields are precisely those collected by the steps already passed. -/
def dataShape (st : SessionState) : Prop :=
  match st.step with
  | .name => st.data = emptyData
  | .checkin => st.data.name.isSome = true ∧ st.data.checkin_date = none ∧
      st.data.checkout_date = none ∧ st.data.guests = none ∧
      st.data.breakfast = none ∧ st.data.payment_method = none
  | .checkout => st.data.name.isSome = true ∧ st.data.checkin_date.isSome = true ∧
      st.data.checkout_date = none ∧ st.data.guests = none ∧
      st.data.breakfast = none ∧ st.data.payment_method = none
  | .guests => st.data.name.isSome = true ∧ st.data.checkin_date.isSome = true ∧
      st.data.checkout_date.isSome = true ∧ st.data.guests = none ∧
      st.data.breakfast = none ∧ st.data.payment_method = none
  | .breakfast => st.data.name.isSome = true ∧ st.data.checkin_date.isSome = true ∧
      st.data.checkout_date.isSome = true ∧ st.data.guests.isSome = true ∧
      st.data.breakfast = none ∧ st.data.payment_method = none
  | .payment => st.data.name.isSome = true ∧ st.data.checkin_date.isSome = true ∧
      st.data.checkout_date.isSome = true ∧ st.data.guests.isSome = true ∧
      st.data.breakfast.isSome = true ∧ st.data.payment_method = none
  | .confirm => st.data.name.isSome = true ∧ st.data.checkin_date.isSome = true ∧
      st.data.checkout_date.isSome = true ∧ st.data.guests.isSome = true ∧
      st.data.breakfast.isSome = true ∧ st.data.payment_method.isSome = true
  | .complete => st.data.name.isSome = true ∧ st.data.checkin_date.isSome = true ∧
      st.data.checkout_date.isSome = true ∧ st.data.guests.isSome = true ∧
      st.data.breakfast.isSome = true ∧ st.data.payment_method.isSome = true

/-- Session states reachable from a fresh session (step `name`, empty
data) by turns of `process_conversation_step`, for arbitrary extractor
oracles, sink behaviour and messages on each turn. -/
inductive Reachable : SessionState → Prop
  | init (sid : String) : Reachable ⟨sid, .name, emptyData⟩
  | step (st : SessionState) (en pd : String → Option String)
      (sink : String → BookingData → Except Unit BookingRecord) (msg : String) :
      Reachable st → Reachable (process_conversation_step en pd sink st msg).2

/-- Every reachable session satisfies the per-step data shape. -/
theorem reachable_dataShape {st : SessionState} (h : Reachable st) : dataShape st := by
  induction h with
  | init sid => rfl
  | step st en pd sink msg hr ih =>
    obtain ⟨sid, stp, d⟩ := st
    cases stp
    case name =>
      have hd : d = emptyData := ih
      subst hd
      simp only [process_conversation_step]
      cases htr : truthyStr (en msg)
      · simp [htr, dataShape]
      · simp [htr, dataShape, emptyData]
    case checkin =>
      obtain ⟨h1, h2, h3, h4, h5, h6⟩ := ih
      simp only [process_conversation_step]
      cases htr : truthyStr (pd msg)
      · simpa [htr, dataShape] using ⟨h1, h2, h3, h4, h5, h6⟩
      · simp_all [htr, dataShape]
    case checkout =>
      obtain ⟨h1, h2, h3, h4, h5, h6⟩ := ih
      obtain ⟨ci, hci⟩ := Option.isSome_iff_exists.mp h2
      simp only [process_conversation_step]
      cases htr : truthyStr (pd msg)
      · simpa [htr, dataShape] using ⟨h1, h2, h3, h4, h5, h6⟩
      · simp only [htr, if_true]
        rw [hci]
        dsimp only
        by_cases hv : validate_date_order ci ((pd msg).getD "") = true
        · rw [if_pos hv]
          exact ⟨h1, by simp [hci], by simp, h4, h5, h6⟩
        · rw [if_neg hv]
          exact ⟨h1, h2, h3, h4, h5, h6⟩
    case guests =>
      obtain ⟨h1, h2, h3, h4, h5, h6⟩ := ih
      simp only [process_conversation_step]
      cases htr : truthyNat (parse_guests msg)
      · simpa [htr, dataShape] using ⟨h1, h2, h3, h4, h5, h6⟩
      · simp_all [htr, dataShape]
    case breakfast =>
      obtain ⟨h1, h2, h3, h4, h5, h6⟩ := ih
      simp only [process_conversation_step]
      cases hy : is_yes msg
      · simpa [hy, dataShape] using ⟨h1, h2, h3, h4, h5, h6⟩
      · simp_all [hy, dataShape]
    case payment =>
      obtain ⟨h1, h2, h3, h4, h5, h6⟩ := ih
      obtain ⟨nm, hnm⟩ := Option.isSome_iff_exists.mp h1
      obtain ⟨ci, hci⟩ := Option.isSome_iff_exists.mp h2
      obtain ⟨co, hco⟩ := Option.isSome_iff_exists.mp h3
      obtain ⟨g, hg⟩ := Option.isSome_iff_exists.mp h4
      simp only [process_conversation_step]
      rw [hnm, hci, hco, hg]
      simp_all [dataShape]
    case confirm =>
      obtain ⟨h1, h2, h3, h4, h5, h6⟩ := ih
      simp only [process_conversation_step]
      cases haff : affirmWords.contains (pyStrip (pyLower msg))
      · cases hneg : negWords.contains (pyStrip (pyLower msg))
        · simpa [haff, hneg, dataShape] using ⟨h1, h2, h3, h4, h5, h6⟩
        · simp [haff, hneg, dataShape, emptyData]
      · simp only [haff, if_true]
        cases hs : sink sid d
        · simpa [dataShape] using ⟨h1, h2, h3, h4, h5, h6⟩
        · simpa [dataShape] using ⟨h1, h2, h3, h4, h5, h6⟩
    case complete =>
      simp [process_conversation_step, dataShape, emptyData]

/-- No populated field of `d` is lost in `d2`. -/
def dataPreserved (d d2 : BookingData) : Prop :=
  (d.name.isSome = true → d2.name.isSome = true) ∧
  (d.checkin_date.isSome = true → d2.checkin_date.isSome = true) ∧
  (d.checkout_date.isSome = true → d2.checkout_date.isSome = true) ∧
  (d.guests.isSome = true → d2.guests.isSome = true) ∧
  (d.breakfast.isSome = true → d2.breakfast.isSome = true) ∧
  (d.payment_method.isSome = true → d2.payment_method.isSome = true)

/-- Every turn either performs the full reset (empty data together with
step `name`) or preserves every populated field. -/
theorem process_reset_or_preserve
    (en pd : String → Option String)
    (sink : String → BookingData → Except Unit BookingRecord)
    (st : SessionState) (msg : String) :
    ((process_conversation_step en pd sink st msg).2.data = emptyData ∧
      (process_conversation_step en pd sink st msg).2.step = .name) ∨
    dataPreserved st.data (process_conversation_step en pd sink st msg).2.data := by
  obtain ⟨sid, stp, d⟩ := st
  cases stp
  case name =>
    simp only [process_conversation_step]
    by_cases htr : truthyStr (en msg) = true
    · rw [if_pos htr]; right; exact ⟨fun _ => rfl, id, id, id, id, id⟩
    · rw [if_neg htr]; right; exact ⟨id, id, id, id, id, id⟩
  case checkin =>
    simp only [process_conversation_step]
    by_cases htr : truthyStr (pd msg) = true
    · rw [if_pos htr]; right; exact ⟨id, fun _ => rfl, id, id, id, id⟩
    · rw [if_neg htr]; right; exact ⟨id, id, id, id, id, id⟩
  case checkout =>
    simp only [process_conversation_step]
    by_cases htr : truthyStr (pd msg) = true
    · rw [if_pos htr]
      cases hci : d.checkin_date with
      | none => right; exact ⟨id, id, id, id, id, id⟩
      | some ci =>
        dsimp only
        by_cases hv : validate_date_order ci ((pd msg).getD "") = true
        · rw [if_pos hv]; right
          exact ⟨id, fun _ => rfl, fun _ => rfl, id, id, id⟩
        · rw [if_neg hv]; right; exact ⟨id, id, id, id, id, id⟩
    · rw [if_neg htr]; right; exact ⟨id, id, id, id, id, id⟩
  case guests =>
    simp only [process_conversation_step]
    by_cases htr : truthyNat (parse_guests msg) = true
    · rw [if_pos htr]; right; exact ⟨id, id, id, fun _ => rfl, id, id⟩
    · rw [if_neg htr]; right; exact ⟨id, id, id, id, id, id⟩
  case breakfast =>
    simp only [process_conversation_step]
    cases hy : is_yes msg with
    | none => right; exact ⟨id, id, id, id, id, id⟩
    | some b => right; exact ⟨id, id, id, id, fun _ => rfl, id⟩
  case payment =>
    simp only [process_conversation_step]
    right
    refine ⟨?_, ?_, ?_, ?_, ?_, ?_⟩ <;> intro hsm <;>
      cases hn : d.name <;> cases hc : d.checkin_date <;>
        cases hco : d.checkout_date <;> cases hg : d.guests <;> simp_all
  case confirm =>
    simp only [process_conversation_step]
    by_cases haff : affirmWords.contains (pyStrip (pyLower msg)) = true
    · rw [if_pos haff]
      cases hs : sink sid d with
      | error e => right; exact ⟨id, id, id, id, id, id⟩
      | ok r => right; exact ⟨id, id, id, id, id, id⟩
    · rw [if_neg haff]
      by_cases hneg : negWords.contains (pyStrip (pyLower msg)) = true
      · rw [if_pos hneg]; left; exact ⟨rfl, rfl⟩
      · rw [if_neg hneg]; right; exact ⟨id, id, id, id, id, id⟩
  case complete =>
    left; exact ⟨rfl, rfl⟩

/-- C9: in every session state reachable from the initial state, the
data fields are populated strictly in step order — a later-step field is
never present while an earlier required field is absent — and on any
further turn fields only disappear through a reset that clears all
fields together with the step. -/
theorem session_fields_step_ordered (st : SessionState) (h : Reachable st) :
    ((st.data.checkin_date.isSome = true → st.data.name.isSome = true) ∧
     (st.data.checkout_date.isSome = true → st.data.checkin_date.isSome = true) ∧
     (st.data.guests.isSome = true → st.data.checkout_date.isSome = true) ∧
     (st.data.breakfast.isSome = true → st.data.guests.isSome = true) ∧
     (st.data.payment_method.isSome = true → st.data.breakfast.isSome = true)) ∧
    ∀ (en pd : String → Option String)
      (sink : String → BookingData → Except Unit BookingRecord) (msg : String),
      (((process_conversation_step en pd sink st msg).2.data = emptyData ∧
        (process_conversation_step en pd sink st msg).2.step = .name) ∨
       dataPreserved st.data
         (process_conversation_step en pd sink st msg).2.data) := by
  constructor
  · have hs := reachable_dataShape h
    obtain ⟨sid, stp, d⟩ := st
    cases stp
    case name =>
      have hd : d = emptyData := hs
      subst hd
      exact ⟨by simp [emptyData], by simp [emptyData], by simp [emptyData],
        by simp [emptyData], by simp [emptyData]⟩
    case checkin =>
      obtain ⟨g1, g2, g3, g4, g5, g6⟩ := hs
      dsimp only at g1 g2 g3 g4 g5 g6
      exact ⟨fun _ => g1, by simp [g3], by simp [g4], by simp [g5], by simp [g6]⟩
    case checkout =>
      obtain ⟨g1, g2, g3, g4, g5, g6⟩ := hs
      dsimp only at g1 g2 g3 g4 g5 g6
      exact ⟨fun _ => g1, fun _ => g2, by simp [g4], by simp [g5], by simp [g6]⟩
    case guests =>
      obtain ⟨g1, g2, g3, g4, g5, g6⟩ := hs
      dsimp only at g1 g2 g3 g4 g5 g6
      exact ⟨fun _ => g1, fun _ => g2, fun _ => g3, by simp [g5], by simp [g6]⟩
    case breakfast =>
      obtain ⟨g1, g2, g3, g4, g5, g6⟩ := hs
      dsimp only at g1 g2 g3 g4 g5 g6
      exact ⟨fun _ => g1, fun _ => g2, fun _ => g3, fun _ => g4, by simp [g6]⟩
    case payment =>
      obtain ⟨g1, g2, g3, g4, g5, g6⟩ := hs
      exact ⟨fun _ => g1, fun _ => g2, fun _ => g3, fun _ => g4, fun _ => g5⟩
    case confirm =>
      obtain ⟨g1, g2, g3, g4, g5, g6⟩ := hs
      exact ⟨fun _ => g1, fun _ => g2, fun _ => g3, fun _ => g4, fun _ => g5⟩
    case complete =>
      obtain ⟨g1, g2, g3, g4, g5, g6⟩ := hs
      exact ⟨fun _ => g1, fun _ => g2, fun _ => g3, fun _ => g4, fun _ => g5⟩
  · intro en pd sink msg
    exact process_reset_or_preserve en pd sink st msg


/-- Witness for C9: the theorem applied to the initial session state,
whose reachability is direct, and one concrete turn. -/
theorem session_fields_step_ordered_witness :
    ((⟨"s", Step.name, emptyData⟩ : SessionState).data.checkin_date.isSome = true →
      (⟨"s", Step.name, emptyData⟩ : SessionState).data.name.isSome = true) ∧
    (((process_conversation_step enNone enNone sinkOkW
          ⟨"s", Step.name, emptyData⟩ "hello").2.data = emptyData ∧
        (process_conversation_step enNone enNone sinkOkW
          ⟨"s", Step.name, emptyData⟩ "hello").2.step = Step.name) ∨
      dataPreserved (⟨"s", Step.name, emptyData⟩ : SessionState).data
        (process_conversation_step enNone enNone sinkOkW
          ⟨"s", Step.name, emptyData⟩ "hello").2.data) :=
  ⟨(session_fields_step_ordered _ (Reachable.init "s")).1.1,
   (session_fields_step_ordered _ (Reachable.init "s")).2 enNone enNone
     sinkOkW "hello"⟩
